import Mathlib

/-!
# Verification of the `my_data_model` catalog extractor

Shallow embedding of `src/my_data_model/main.py`: the pydantic data model
(`ForeignKey`, `Column`, `Index`, `ReferencedBy`, `Table`, `Schema`,
`DatabaseModel`), the four catalog lookups of `PostgresSchemaExtractor`
(`_get_primary_keys`, `_get_foreign_keys`, `_get_referenced_by`, plus the
inspector's index listing), the assembly loop `extract_schema`, and the
driver `main`.

Python `dict`s are embedded as association lists `List (String × α)` with
Python's update semantics: assigning to an existing key replaces the value
in place, assigning to a fresh key appends.  The external database
(SQLAlchemy inspector + session) is embedded as a `Catalog` record of the
raw query results; the queries that the claims examine for failure
behaviour return `Except PyError`.
-/

set_option autoImplicit false

namespace MyDataModel

universe u v

/-- A Python exception, as far as this program observes one: either a generic
backend exception or the program's own `SchemaValueError`; `message` is what
`str(e)` renders. -/
inductive PyError where
  | generic (msg : String)
  | schemaValueError (msg : String)
  deriving Repr, DecidableEq

/-- `str(e)` of an exception: its message. -/
def PyError.message : PyError → String
  | .generic m => m
  | .schemaValueError m => m

/-- Python `s.lower()`, embedded character-wise (ASCII lower-casing of every
character, like `str.lower` on the catalog's ASCII type labels). -/
def pyLower (s : String) : String :=
  String.mk (s.data.map Char.toLower)

/-! ## Python dict embedding -/

/-- Python `d[k]` / `d.get(k)`: the value stored under key `k`, if any. -/
def dlookup {α : Type u} (k : String) : List (String × α) → Option α
  | [] => none
  | (k', v) :: rest => if k' = k then some v else dlookup k rest

/-- Python `d[k] = v`: replace in place if the key exists, else append
(Python dicts preserve insertion order and update in place). -/
def dinsert {α : Type u} (k : String) (v : α) : List (String × α) → List (String × α)
  | [] => [(k, v)]
  | (k', v') :: rest => if k' = k then (k, v) :: rest else (k', v') :: dinsert k v rest

/-- The keys of a dict, in order. -/
def dkeys {α : Type u} (d : List (String × α)) : List String :=
  d.map Prod.fst

/-- Python dict comprehension `{key(r): val(r) for r in rows}`: sequential
insertion, so a later row with the same key overwrites an earlier one. -/
def pyDictOf {β : Type v} {α : Type u} (key : β → String) (val : β → α)
    (rows : List β) : List (String × α) :=
  rows.foldl (fun d r => dinsert (key r) (val r) d) []

/-! ## Pydantic models (`main.py` lines 17-57) -/

/-- `class ForeignKey(BaseModel)`. -/
structure ForeignKey where
  target_table : String
  target_column : String
  constraint_name : String
  deriving Repr, DecidableEq

/-- `class Column(BaseModel)`. -/
structure Column where
  name : String
  type : String
  nullable : Bool
  default : Option String := none
  primary_key : Bool := false
  foreign_key : Option ForeignKey := none
  deriving Repr, DecidableEq

/-- `class Index(BaseModel)`. -/
structure Index where
  name : String
  columns : List String
  unique : Bool
  type : Option String := some "index"
  deriving Repr, DecidableEq

/-- `class ReferencedBy(BaseModel)`. -/
structure ReferencedBy where
  table : String
  columns : List String
  constraint : String
  deriving Repr, DecidableEq

/-- `class Table(BaseModel)`. -/
structure Table where
  description : Option String := none
  columns : List (String × Column) := []
  indexes : List (String × Index) := []
  referenced_by : List (String × ReferencedBy) := []
  deriving Repr, DecidableEq

/-- `class Schema(BaseModel)`. -/
structure Schema where
  tables : List (String × Table) := []
  deriving Repr, DecidableEq

/-- `class DatabaseModel(BaseModel)`. -/
structure DatabaseModel where
  schemas : List (String × Schema) := []
  deriving Repr, DecidableEq

/-! ## Raw catalog rows

One structure per result-row shape of the four catalog queries, plus the
generic column record returned by `inspector.get_columns` and the index
record returned by `inspector.get_indexes`. -/

/-- A row of the `_get_primary_keys` query: `a.attname`. -/
structure PkRow where
  attname : String
  deriving Repr, DecidableEq

/-- A row of the `_get_foreign_keys` query. -/
structure FkRow where
  column_name : String
  target_table : String
  target_column : String
  constraint_name : String
  deriving Repr, DecidableEq

/-- A row of the `_get_referenced_by` query. -/
structure RefRow where
  source_table : String
  source_column : String
  constraint_name : String
  deriving Repr, DecidableEq

/-- One record of `inspector.get_columns`. -/
structure ColInfo where
  name : String
  type : String
  nullable : Bool
  default : Option String
  deriving Repr, DecidableEq

/-- One record of `inspector.get_indexes`: `type` is absent when the dialect
does not report an access method (`idx.get("type", "btree")`). -/
structure IdxRow where
  name : String
  column_names : List String
  unique : Bool
  type : Option String
  deriving Repr, DecidableEq

/-- The external database as this program sees it: the results the SQLAlchemy
inspector and session produce for each query.  The lookups whose failure the
program handles (`session.execute` queries and `inspector.get_indexes`)
return `Except PyError`. -/
structure Catalog where
  schemaNames : List String
  tableNames : String → List String
  columns : String → String → List ColInfo
  pkExec : String → String → Except PyError (List PkRow)
  fkExec : String → String → Except PyError (List FkRow)
  refExec : String → String → Except PyError (List RefRow)
  idxExec : String → String → Except PyError (List IdxRow)

/-! ## Catalog query layer (`main.py` lines 78-150) -/

/-- `_get_primary_keys`: `[row[0] for row in result]`. -/
def getPrimaryKeys (cat : Catalog) (schema table_name : String) :
    Except PyError (List String) :=
  (cat.pkExec schema table_name).map (fun rows => rows.map PkRow.attname)

/-- The `ForeignKey` built from one `_get_foreign_keys` row. -/
def fkOfRow (r : FkRow) : ForeignKey :=
  { target_table := r.target_table
    target_column := r.target_column
    constraint_name := r.constraint_name }

/-- The dict comprehension of `_get_foreign_keys`, keyed by the local
`column_name`. -/
def fkDict (rows : List FkRow) : List (String × ForeignKey) :=
  pyDictOf FkRow.column_name fkOfRow rows

/-- `_get_foreign_keys`. -/
def getForeignKeys (cat : Catalog) (schema table_name : String) :
    Except PyError (List (String × ForeignKey)) :=
  (cat.fkExec schema table_name).map fkDict

/-- The `ReferencedBy` built from one `_get_referenced_by` row:
`ReferencedBy(table=row[0], columns=[row[1]], constraint=row[2])`. -/
def refOfRow (r : RefRow) : ReferencedBy :=
  { table := r.source_table
    columns := [r.source_column]
    constraint := r.constraint_name }

/-- The dict comprehension of `_get_referenced_by`, keyed by the referencing
table name `row[0]`. -/
def refDict (rows : List RefRow) : List (String × ReferencedBy) :=
  pyDictOf RefRow.source_table refOfRow rows

/-- `_get_referenced_by`. -/
def getReferencedBy (cat : Catalog) (schema table_name : String) :
    Except PyError (List (String × ReferencedBy)) :=
  (cat.refExec schema table_name).map refDict

/-! ## Model assembly (`extract_schema`, `main.py` lines 152-241) -/

/-- The column loop body (lines 175-188): build the `Column` with
`primary_key = col["name"] in primary_keys`, then set `foreign_key` when
`col["name"] in foreign_keys`. -/
def buildColumn (primary_keys : List String) (foreign_keys : List (String × ForeignKey))
    (col : ColInfo) : Column :=
  { name := col.name
    type := col.type
    nullable := col.nullable
    default := col.default
    primary_key := primary_keys.contains col.name
    foreign_key := dlookup col.name foreign_keys }

/-- The column mapping of one table: the column loop inserts each built
column under `col["name"]`. -/
def buildColumns (primary_keys : List String) (foreign_keys : List (String × ForeignKey))
    (cols : List ColInfo) : List (String × Column) :=
  pyDictOf ColInfo.name (buildColumn primary_keys foreign_keys) cols

/-- The `Index` built from one `inspector.get_indexes` record (lines
202-211): `index_type = idx.get("type", "btree").lower()`. -/
def mkIndexOf (idx : IdxRow) : Index :=
  let index_type := pyLower (idx.type.getD "btree")
  { name := idx.name
    columns := idx.column_names
    unique := idx.unique
    type := some index_type }

/-- The index loop (lines 201-212): skip the `"PRIMARY"` sentinel
(`if idx["name"] != "PRIMARY"`), insert under `idx["name"]`. -/
def buildIndexes (rows : List IdxRow) : List (String × Index) :=
  rows.foldl
    (fun d idx => if idx.name ≠ "PRIMARY" then dinsert idx.name (mkIndexOf idx) d else d)
    []

/-- The message of the `SchemaValueError` raised when `get_indexes` fails
(lines 214-219).  In the source the first literal is a plain string, not an
f-string, so the braces and the words `schema_name` / `table_name` appear
literally in the message; only the exception text is interpolated. -/
def idxErrorMsg (e : PyError) : String :=
  "Erro ao tentar obter os indices no catálogo para '\x7bschema_name\x7d.\x7btable_name\x7d'. Exception: "
    ++ e.message

/-- The message of the `SchemaValueError` raised when `_get_referenced_by`
fails (lines 226-231); here the schema and table names are interpolated. -/
def refErrorMsg (schema_name table_name : String) (e : PyError) : String :=
  "Erro ao tentar obter restrições de integridade referencial no catálogo para '"
    ++ schema_name ++ "." ++ table_name ++ "'. Exception: " ++ e.message

/-- The per-table body of `extract_schema` (lines 167-231): fetch columns,
primary keys and foreign keys, assemble the column mapping, then fetch
indexes and reverse references, wrapping a failure of either of those two
in a `SchemaValueError`. -/
def processTable (cat : Catalog) (schema_name table_name : String) :
    Except PyError Table :=
  match getPrimaryKeys cat schema_name table_name with
  | .error e => .error e
  | .ok primary_keys =>
    match getForeignKeys cat schema_name table_name with
    | .error e => .error e
    | .ok foreign_keys =>
      match cat.idxExec schema_name table_name with
      | .error e => .error (.schemaValueError (idxErrorMsg e))
      | .ok rows =>
        match getReferencedBy cat schema_name table_name with
        | .error e => .error (.schemaValueError (refErrorMsg schema_name table_name e))
        | .ok refd =>
          .ok { description := none
                columns := buildColumns primary_keys foreign_keys
                  (cat.columns schema_name table_name)
                indexes := buildIndexes rows
                referenced_by := refd }

/-- The inner loop of `extract_schema` over one schema's tables
(lines 167-233), accumulating into the `Schema`'s table dict. -/
def processTables (cat : Catalog) (schema_name : String) :
    List String → Schema → Except PyError Schema
  | [], acc => Except.ok acc
  | table_name :: rest, acc =>
    match processTable cat schema_name table_name with
    | .error e => Except.error e
    | .ok tbl =>
        processTables cat schema_name rest { tables := dinsert table_name tbl acc.tables }

/-- One schema of `extract_schema`: all its tables, starting from an empty
`Schema()`. -/
def processSchema (cat : Catalog) (schema_name : String) : Except PyError Schema :=
  processTables cat schema_name (cat.tableNames schema_name) {}

/-- The schema filter of `extract_schema` (lines 156-160):
`s not in ("information_schema", "pg_catalog")`. -/
def keptSchemas (cat : Catalog) : List String :=
  cat.schemaNames.filter fun s => !(s == "information_schema" || s == "pg_catalog")

/-- The outer loop of `extract_schema` over the kept schemas
(lines 162-235). -/
def processSchemas (cat : Catalog) :
    List String → DatabaseModel → Except PyError DatabaseModel
  | [], acc => Except.ok acc
  | schema_name :: rest, acc =>
    match processSchema cat schema_name with
    | .error e => Except.error e
    | .ok sch =>
        processSchemas cat rest { schemas := dinsert schema_name sch acc.schemas }

/-- `extract_schema`. -/
def extractSchema (cat : Catalog) : Except PyError DatabaseModel :=
  processSchemas cat (keptSchemas cat) {}

/-! ## Driver (`main`, lines 260-297) -/

/-- The observable outcome of a run of `main`: the document written to
`tmp/schema_documentation.json` (as the model it serializes; the JSON
rendering itself is excluded glue) and the process exit code. -/
structure RunResult where
  written : Option DatabaseModel
  exitCode : Nat
  deriving Repr, DecidableEq

/-- `main`: extract, then serialize and write the file; on any exception
print the error and `sys.exit(1)` without writing. -/
def main (cat : Catalog) : RunResult :=
  match extractSchema cat with
  | .ok database_model => { written := some database_model, exitCode := 0 }
  | .error _ => { written := none, exitCode := 1 }

/-! ## Lemmas about the dict embedding -/

theorem dlookup_dinsert_self {α : Type u} (k : String) (v : α) (d : List (String × α)) :
    dlookup k (dinsert k v d) = some v := by
  induction d with
  | nil => simp [dinsert, dlookup]
  | cons p rest ih =>
    obtain ⟨k', v'⟩ := p
    by_cases h : k' = k
    · simp [dinsert, dlookup, h]
    · simp [dinsert, dlookup, h, ih]

theorem dlookup_dinsert_ne {α : Type u} {k k' : String} (h : k' ≠ k) (v : α)
    (d : List (String × α)) : dlookup k (dinsert k' v d) = dlookup k d := by
  induction d with
  | nil => simp [dinsert, dlookup, h]
  | cons p rest ih =>
    obtain ⟨a, b⟩ := p
    by_cases ha : a = k'
    · subst ha; simp [dinsert, dlookup, h]
    · simp only [dinsert, dlookup, if_neg ha, ih]

theorem mem_dinsert {α : Type u} {k k' : String} {v v' : α} {d : List (String × α)}
    (h : (k, v) ∈ dinsert k' v' d) : (k = k' ∧ v = v') ∨ (k, v) ∈ d := by
  induction d with
  | nil =>
    simp only [dinsert, List.mem_singleton, Prod.mk.injEq] at h
    exact Or.inl h
  | cons p rest ih =>
    obtain ⟨a, b⟩ := p
    by_cases ha : a = k'
    · rw [show dinsert k' v' ((a, b) :: rest) = (k', v') :: rest by
        simp only [dinsert, if_pos ha]] at h
      rcases List.mem_cons.mp h with h | h
      · rw [Prod.mk.injEq] at h
        exact Or.inl h
      · exact Or.inr (List.mem_cons_of_mem _ h)
    · rw [show dinsert k' v' ((a, b) :: rest) = (a, b) :: dinsert k' v' rest by
        simp only [dinsert, if_neg ha]] at h
      rcases List.mem_cons.mp h with h | h
      · exact Or.inr (List.mem_cons.mpr (Or.inl h))
      · rcases ih h with h' | h'
        · exact Or.inl h'
        · exact Or.inr (List.mem_cons_of_mem _ h')

theorem dlookup_mem {α : Type u} {k : String} {v : α} :
    ∀ {d : List (String × α)}, dlookup k d = some v → (k, v) ∈ d := by
  intro d
  induction d with
  | nil => intro h; simp [dlookup] at h
  | cons p rest ih =>
    obtain ⟨a, b⟩ := p
    intro h
    by_cases ha : a = k
    · rw [show dlookup k ((a, b) :: rest) = some b by
        simp only [dlookup, if_pos ha]] at h
      rw [Option.some.injEq] at h
      subst h
      subst ha
      exact List.mem_cons_self _ _
    · rw [show dlookup k ((a, b) :: rest) = dlookup k rest by
        simp only [dlookup, if_neg ha]] at h
      exact List.mem_cons_of_mem _ (ih h)

theorem mem_dkeys_iff {α : Type u} (k : String) (d : List (String × α)) :
    k ∈ dkeys d ↔ ∃ v, (k, v) ∈ d := by
  simp only [dkeys, List.mem_map, Prod.exists]
  constructor
  · rintro ⟨a, b, hm, rfl⟩
    exact ⟨b, hm⟩
  · rintro ⟨b, hm⟩
    exact ⟨k, b, hm, rfl⟩

theorem dlookup_isSome_iff {α : Type u} (k : String) (d : List (String × α)) :
    (dlookup k d).isSome = true ↔ k ∈ dkeys d := by
  induction d with
  | nil => simp [dlookup, dkeys]
  | cons p rest ih =>
    obtain ⟨a, b⟩ := p
    by_cases ha : a = k
    · subst ha; simp [dlookup, dkeys]
    · simp [dlookup, dkeys, ha, ih, Ne.symm ha]

theorem mem_dkeys_dinsert {α : Type u} (k k' : String) (v : α) (d : List (String × α)) :
    k' ∈ dkeys (dinsert k v d) ↔ k' = k ∨ k' ∈ dkeys d := by
  rw [← dlookup_isSome_iff, ← dlookup_isSome_iff]
  by_cases hk : k' = k
  · subst hk
    rw [dlookup_dinsert_self]
    simp
  · rw [dlookup_dinsert_ne (Ne.symm hk)]
    simp [hk]

theorem nodup_dkeys_dinsert {α : Type u} (k : String) (v : α) {d : List (String × α)}
    (h : (dkeys d).Nodup) : (dkeys (dinsert k v d)).Nodup := by
  induction d with
  | nil => simp [dinsert, dkeys]
  | cons p rest ih =>
    obtain ⟨a, b⟩ := p
    simp only [dkeys, List.map_cons, List.nodup_cons] at h
    by_cases ha : a = k
    · rw [show dinsert k v ((a, b) :: rest) = (k, v) :: rest by
        simp only [dinsert, if_pos ha]]
      simp only [dkeys, List.map_cons, List.nodup_cons]
      subst ha
      exact h
    · rw [show dinsert k v ((a, b) :: rest) = (a, b) :: dinsert k v rest by
        simp only [dinsert, if_neg ha]]
      simp only [dkeys, List.map_cons, List.nodup_cons]
      refine ⟨?_, ih h.2⟩
      intro hmem
      rcases (mem_dkeys_dinsert k a v rest).mp hmem with h' | h'
      · exact ha h'
      · exact h.1 h'

theorem mem_foldl_dinsert {β : Type v} {α : Type u} (key : β → String) (val : β → α) :
    ∀ (rows : List β) (init : List (String × α)) (k : String) (v : α),
      (k, v) ∈ rows.foldl (fun d r => dinsert (key r) (val r) d) init →
      (k, v) ∈ init ∨ ∃ r ∈ rows, k = key r ∧ v = val r := by
  intro rows
  induction rows with
  | nil => intro init k v h; exact Or.inl h
  | cons r rest ih =>
    intro init k v h
    rw [List.foldl_cons] at h
    rcases ih _ k v h with h' | h'
    · rcases mem_dinsert h' with h'' | h''
      · exact Or.inr ⟨r, List.mem_cons_self _ _, h''⟩
      · exact Or.inl h''
    · obtain ⟨r', hr', hk, hv⟩ := h'
      exact Or.inr ⟨r', List.mem_cons_of_mem _ hr', hk, hv⟩

theorem mem_pyDictOf {β : Type v} {α : Type u} {key : β → String} {val : β → α}
    {rows : List β} {k : String} {v : α} (h : (k, v) ∈ pyDictOf key val rows) :
    ∃ r ∈ rows, k = key r ∧ v = val r := by
  rcases mem_foldl_dinsert key val rows [] k v h with h' | h'
  · simp at h'
  · exact h'

theorem nodup_dkeys_foldl_dinsert {β : Type v} {α : Type u} (key : β → String)
    (val : β → α) :
    ∀ (rows : List β) (init : List (String × α)), (dkeys init).Nodup →
      (dkeys (rows.foldl (fun d r => dinsert (key r) (val r) d) init)).Nodup := by
  intro rows
  induction rows with
  | nil => intro init h; exact h
  | cons r rest ih =>
    intro init h
    rw [List.foldl_cons]
    exact ih _ (nodup_dkeys_dinsert _ _ h)

theorem nodup_dkeys_pyDictOf {β : Type v} {α : Type u} (key : β → String) (val : β → α)
    (rows : List β) : (dkeys (pyDictOf key val rows)).Nodup :=
  nodup_dkeys_foldl_dinsert key val rows [] (by simp [dkeys])

theorem dlookup_pyDictOf {β : Type v} {α : Type u} (key : β → String) (val : β → α)
    (rows : List β) (k : String) :
    dlookup k (pyDictOf key val rows) =
      ((rows.filter fun r => key r == k).getLast?).map val := by
  induction rows using List.reverseRecOn with
  | nil => simp [pyDictOf, dlookup]
  | append_singleton l r ih =>
    rw [pyDictOf, List.foldl_append, List.foldl_cons, List.foldl_nil]
    rw [List.filter_append]
    by_cases h : key r = k
    · rw [h, dlookup_dinsert_self]
      simp [h, List.getLast?_append_cons]
    · rw [dlookup_dinsert_ne h]
      have hfalse : (key r == k) = false := by simp [h]
      have : (List.filter (fun r => key r == k) [r]) = [] := by
        simp [List.filter, hfalse]
      rw [this, List.append_nil]
      exact ih

/-! ## Lemmas about the extraction loops -/

theorem mem_buildIndexes_aux :
    ∀ (rows : List IdxRow) (init : List (String × Index)) (k : String) (v : Index),
      (k, v) ∈ rows.foldl
        (fun d idx => if idx.name ≠ "PRIMARY" then dinsert idx.name (mkIndexOf idx) d else d)
        init →
      (k, v) ∈ init ∨ ∃ r ∈ rows, r.name ≠ "PRIMARY" ∧ k = r.name ∧ v = mkIndexOf r := by
  intro rows
  induction rows with
  | nil => intro init k v h; exact Or.inl h
  | cons r rest ih =>
    intro init k v h
    rw [List.foldl_cons] at h
    by_cases hr : r.name = "PRIMARY"
    · rw [if_neg (not_not_intro hr)] at h
      rcases ih _ k v h with h' | h'
      · exact Or.inl h'
      · obtain ⟨r', hr', hp, hk, hv⟩ := h'
        exact Or.inr ⟨r', List.mem_cons_of_mem _ hr', hp, hk, hv⟩
    · rw [if_pos hr] at h
      rcases ih _ k v h with h' | h'
      · rcases mem_dinsert h' with h'' | h''
        · exact Or.inr ⟨r, List.mem_cons_self _ _, hr, h''⟩
        · exact Or.inl h''
      · obtain ⟨r', hr', hp, hk, hv⟩ := h'
        exact Or.inr ⟨r', List.mem_cons_of_mem _ hr', hp, hk, hv⟩

theorem mem_buildIndexes {rows : List IdxRow} {k : String} {v : Index}
    (h : (k, v) ∈ buildIndexes rows) :
    ∃ r ∈ rows, r.name ≠ "PRIMARY" ∧ k = r.name ∧ v = mkIndexOf r := by
  rcases mem_buildIndexes_aux rows [] k v h with h' | h'
  · simp at h'
  · exact h'

theorem processTable_ok_parts {cat : Catalog} {s t : String} {tbl : Table}
    (h : processTable cat s t = .ok tbl) :
    ∃ pks fks idxRows refd,
      getPrimaryKeys cat s t = .ok pks ∧
      getForeignKeys cat s t = .ok fks ∧
      cat.idxExec s t = .ok idxRows ∧
      getReferencedBy cat s t = .ok refd ∧
      tbl = { description := none
              columns := buildColumns pks fks (cat.columns s t)
              indexes := buildIndexes idxRows
              referenced_by := refd } := by
  cases hpk : getPrimaryKeys cat s t with
  | error e => simp only [processTable, hpk] at h; exact Except.noConfusion h
  | ok pks =>
  cases hfk : getForeignKeys cat s t with
  | error e => simp only [processTable, hpk, hfk] at h; exact Except.noConfusion h
  | ok fks =>
  cases hix : cat.idxExec s t with
  | error e => simp only [processTable, hpk, hfk, hix] at h; exact Except.noConfusion h
  | ok idxRows =>
  cases href : getReferencedBy cat s t with
  | error e => simp only [processTable, hpk, hfk, hix, href] at h; exact Except.noConfusion h
  | ok refd =>
    simp only [processTable, hpk, hfk, hix, href, Except.ok.injEq] at h
    exact ⟨pks, fks, idxRows, refd, rfl, rfl, rfl, rfl, h.symm⟩

theorem processTables_ok_forall {cat : Catalog} {s : String} :
    ∀ {ts : List String} {acc sch : Schema},
      processTables cat s ts acc = .ok sch →
      ∀ t ∈ ts, ∃ tbl, processTable cat s t = .ok tbl := by
  intro ts
  induction ts with
  | nil => intro acc sch _ t ht; exact absurd ht (List.not_mem_nil t)
  | cons t' rest ih =>
    intro acc sch h t ht
    cases hp : processTable cat s t' with
    | error e => simp only [processTables, hp] at h; exact Except.noConfusion h
    | ok tbl' =>
      simp only [processTables, hp] at h
      rcases List.mem_cons.mp ht with rfl | ht'
      · exact ⟨tbl', hp⟩
      · exact ih h t ht'

theorem processSchemas_ok_forall {cat : Catalog} :
    ∀ {ss : List String} {acc m : DatabaseModel},
      processSchemas cat ss acc = .ok m →
      ∀ s ∈ ss, ∃ sch, processSchema cat s = .ok sch := by
  intro ss
  induction ss with
  | nil => intro acc m _ s hs; exact absurd hs (List.not_mem_nil s)
  | cons s' rest ih =>
    intro acc m h s hs
    cases hp : processSchema cat s' with
    | error e => simp only [processSchemas, hp] at h; exact Except.noConfusion h
    | ok sch' =>
      simp only [processSchemas, hp] at h
      rcases List.mem_cons.mp hs with rfl | hs'
      · exact ⟨sch', hp⟩
      · exact ih h s hs'

theorem processTables_ok_lookup {cat : Catalog} {s : String} :
    ∀ {ts : List String} {acc sch : Schema} {t : String} {tbl : Table},
      processTables cat s ts acc = .ok sch → dlookup t sch.tables = some tbl →
      dlookup t acc.tables = some tbl ∨ processTable cat s t = .ok tbl := by
  intro ts
  induction ts with
  | nil =>
    intro acc sch t tbl h hl
    simp only [processTables, Except.ok.injEq] at h
    subst h
    exact Or.inl hl
  | cons t' rest ih =>
    intro acc sch t tbl h hl
    cases hp : processTable cat s t' with
    | error e => simp only [processTables, hp] at h; exact Except.noConfusion h
    | ok tbl' =>
      simp only [processTables, hp] at h
      rcases ih h hl with h' | h'
      · by_cases ht : t' = t
        · subst ht
          rw [show (Schema.mk (dinsert t' tbl' acc.tables)).tables
                = dinsert t' tbl' acc.tables from rfl] at h'
          rw [dlookup_dinsert_self, Option.some.injEq] at h'
          subst h'
          exact Or.inr hp
        · rw [show (Schema.mk (dinsert t' tbl' acc.tables)).tables
                = dinsert t' tbl' acc.tables from rfl] at h'
          rw [dlookup_dinsert_ne ht] at h'
          exact Or.inl h'
      · exact Or.inr h'

theorem processSchemas_ok_lookup {cat : Catalog} :
    ∀ {ss : List String} {acc m : DatabaseModel} {s : String} {sch : Schema},
      processSchemas cat ss acc = .ok m → dlookup s m.schemas = some sch →
      dlookup s acc.schemas = some sch ∨ processSchema cat s = .ok sch := by
  intro ss
  induction ss with
  | nil =>
    intro acc m s sch h hl
    simp only [processSchemas, Except.ok.injEq] at h
    subst h
    exact Or.inl hl
  | cons s' rest ih =>
    intro acc m s sch h hl
    cases hp : processSchema cat s' with
    | error e => simp only [processSchemas, hp] at h; exact Except.noConfusion h
    | ok sch' =>
      simp only [processSchemas, hp] at h
      rcases ih h hl with h' | h'
      · by_cases hs : s' = s
        · subst hs
          rw [show (DatabaseModel.mk (dinsert s' sch' acc.schemas)).schemas
                = dinsert s' sch' acc.schemas from rfl] at h'
          rw [dlookup_dinsert_self, Option.some.injEq] at h'
          subst h'
          exact Or.inr hp
        · rw [show (DatabaseModel.mk (dinsert s' sch' acc.schemas)).schemas
                = dinsert s' sch' acc.schemas from rfl] at h'
          rw [dlookup_dinsert_ne hs] at h'
          exact Or.inl h'
      · exact Or.inr h'

theorem extractSchema_ok_lookup {cat : Catalog} {m : DatabaseModel} {s t : String}
    {sch : Schema} {tbl : Table}
    (hm : extractSchema cat = .ok m)
    (hs : dlookup s m.schemas = some sch)
    (ht : dlookup t sch.tables = some tbl) :
    processTable cat s t = .ok tbl := by
  rw [extractSchema] at hm
  rcases processSchemas_ok_lookup hm hs with h | h
  · simp [dlookup] at h
  · rw [processSchema] at h
    rcases processTables_ok_lookup h ht with h' | h'
    · simp [dlookup] at h'
    · exact h'

theorem processSchemas_ok_keys {cat : Catalog} :
    ∀ {ss : List String} {acc m : DatabaseModel},
      processSchemas cat ss acc = .ok m →
      ∀ s, s ∈ dkeys m.schemas ↔ s ∈ dkeys acc.schemas ∨ s ∈ ss := by
  intro ss
  induction ss with
  | nil =>
    intro acc m h s
    simp only [processSchemas, Except.ok.injEq] at h
    subst h
    simp
  | cons s' rest ih =>
    intro acc m h s
    cases hp : processSchema cat s' with
    | error e => simp only [processSchemas, hp] at h; exact Except.noConfusion h
    | ok sch =>
      simp only [processSchemas, hp] at h
      rw [ih h s]
      rw [show (DatabaseModel.mk (dinsert s' sch acc.schemas)).schemas
            = dinsert s' sch acc.schemas from rfl]
      rw [mem_dkeys_dinsert]
      simp only [List.mem_cons]
      tauto

theorem mem_keptSchemas_iff (cat : Catalog) (s : String) :
    s ∈ keptSchemas cat ↔
      s ∈ cat.schemaNames ∧ s ≠ "information_schema" ∧ s ≠ "pg_catalog" := by
  rw [keptSchemas, List.mem_filter]
  simp [not_or]

theorem getReferencedBy_ok {cat : Catalog} {s t : String}
    {refd : List (String × ReferencedBy)}
    (h : getReferencedBy cat s t = .ok refd) :
    ∃ rows, cat.refExec s t = .ok rows ∧ refd = refDict rows := by
  rw [getReferencedBy] at h
  cases hr : cat.refExec s t with
  | error e => rw [hr] at h; exact Except.noConfusion h
  | ok rows =>
    rw [hr] at h
    simp only [Except.map, Except.ok.injEq] at h
    exact ⟨rows, rfl, h.symm⟩

/-! ## The claims -/

/-- C1: for every table assembled by `extract_schema` and every column in
that table's column mapping, the column's `primary_key` flag is true iff the
column's name is a member of the primary-key lookup result for that schema
and table (composite primary keys spanning several columns included). -/
theorem C1_primary_key_iff {cat : Catalog} {m : DatabaseModel} {s t n : String}
    {sch : Schema} {tbl : Table} {col : Column}
    (hm : extractSchema cat = .ok m)
    (hs : dlookup s m.schemas = some sch)
    (ht : dlookup t sch.tables = some tbl)
    (hc : dlookup n tbl.columns = some col) :
    ∃ pks, getPrimaryKeys cat s t = .ok pks ∧
      (col.primary_key = true ↔ col.name ∈ pks) := by
  obtain ⟨pks, fks, idxRows, refd, hpk, hfk, hix, href, htbl⟩ :=
    processTable_ok_parts (extractSchema_ok_lookup hm hs ht)
  subst htbl
  have hmem : (n, col) ∈ pyDictOf ColInfo.name (buildColumn pks fks) (cat.columns s t) :=
    dlookup_mem hc
  obtain ⟨c, hcmem, hkn, hval⟩ := mem_pyDictOf hmem
  subst hval
  refine ⟨pks, hpk, ?_⟩
  show pks.contains c.name = true ↔ c.name ∈ pks
  exact List.elem_iff

/-- C2: for every table assembled by `extract_schema` and every column in
that table's column mapping, the column's `foreign_key` field is present iff
the column's name is a key of the foreign-key lookup's result mapping for
that table, and it equals the `ForeignKey` stored under that key. -/
theorem C2_foreign_key_iff {cat : Catalog} {m : DatabaseModel} {s t n : String}
    {sch : Schema} {tbl : Table} {col : Column}
    (hm : extractSchema cat = .ok m)
    (hs : dlookup s m.schemas = some sch)
    (ht : dlookup t sch.tables = some tbl)
    (hc : dlookup n tbl.columns = some col) :
    ∃ fks, getForeignKeys cat s t = .ok fks ∧
      (col.foreign_key.isSome = true ↔ col.name ∈ dkeys fks) ∧
      col.foreign_key = dlookup col.name fks := by
  obtain ⟨pks, fks, idxRows, refd, hpk, hfk, hix, href, htbl⟩ :=
    processTable_ok_parts (extractSchema_ok_lookup hm hs ht)
  subst htbl
  have hmem : (n, col) ∈ pyDictOf ColInfo.name (buildColumn pks fks) (cat.columns s t) :=
    dlookup_mem hc
  obtain ⟨c, hcmem, hkn, hval⟩ := mem_pyDictOf hmem
  subst hval
  refine ⟨fks, hfk, ?_, rfl⟩
  show (dlookup c.name fks).isSome = true ↔ c.name ∈ dkeys fks
  exact dlookup_isSome_iff c.name fks

/-- C3: the foreign-key lookup produces at most one entry per local column
name and the reverse-reference lookup at most one entry per referencing
table name; on key collisions the entry built from the last catalog row
survives (last-write-wins). -/
theorem C3_last_write_wins {cat : Catalog} {s t : String}
    {fkRows : List FkRow} {refRows : List RefRow}
    (hf : cat.fkExec s t = .ok fkRows) (hr : cat.refExec s t = .ok refRows) :
    getForeignKeys cat s t = .ok (fkDict fkRows) ∧
    (dkeys (fkDict fkRows)).Nodup ∧
    (∀ k, dlookup k (fkDict fkRows) =
      ((fkRows.filter fun r => r.column_name == k).getLast?).map fkOfRow) ∧
    getReferencedBy cat s t = .ok (refDict refRows) ∧
    (dkeys (refDict refRows)).Nodup ∧
    (∀ k, dlookup k (refDict refRows) =
      ((refRows.filter fun r => r.source_table == k).getLast?).map refOfRow) := by
  refine ⟨?_, nodup_dkeys_pyDictOf _ _ _, fun k => dlookup_pyDictOf _ _ _ k,
    ?_, nodup_dkeys_pyDictOf _ _ _, fun k => dlookup_pyDictOf _ _ _ k⟩
  · rw [getForeignKeys, hf]; rfl
  · rw [getReferencedBy, hr]; rfl

/-- C4: no entry of an assembled table's indexes mapping is stored under the
name `"PRIMARY"`; catalog index rows named `"PRIMARY"` are filtered out. -/
theorem C4_no_primary_sentinel {cat : Catalog} {m : DatabaseModel} {s t : String}
    {sch : Schema} {tbl : Table}
    (hm : extractSchema cat = .ok m)
    (hs : dlookup s m.schemas = some sch)
    (ht : dlookup t sch.tables = some tbl) :
    dlookup "PRIMARY" tbl.indexes = none := by
  obtain ⟨pks, fks, idxRows, refd, hpk, hfk, hix, href, htbl⟩ :=
    processTable_ok_parts (extractSchema_ok_lookup hm hs ht)
  subst htbl
  cases hcase : dlookup "PRIMARY" (buildIndexes idxRows) with
  | none => rfl
  | some v =>
    obtain ⟨r, _, hp, hk, _⟩ := mem_buildIndexes (dlookup_mem hcase)
    exact absurd hk.symm hp

/-- C5: every index inserted into an assembled table's indexes mapping has a
`type` equal to the lower-casing of the catalog's access-method label, with
`"btree"` as the default when the catalog row carries no type entry. -/
theorem C5_index_type {cat : Catalog} {m : DatabaseModel} {s t n : String}
    {sch : Schema} {tbl : Table} {idx : Index}
    (hm : extractSchema cat = .ok m)
    (hs : dlookup s m.schemas = some sch)
    (ht : dlookup t sch.tables = some tbl)
    (hi : dlookup n tbl.indexes = some idx) :
    ∃ idxRows, cat.idxExec s t = .ok idxRows ∧
      ∃ r ∈ idxRows, r.name = n ∧
        idx.type = some (pyLower (r.type.getD "btree")) ∧
        (r.type = none → idx.type = some "btree") := by
  obtain ⟨pks, fks, idxRows, refd, hpk, hfk, hix, href, htbl⟩ :=
    processTable_ok_parts (extractSchema_ok_lookup hm hs ht)
  subst htbl
  obtain ⟨r, hrmem, hp, hk, hv⟩ := mem_buildIndexes (dlookup_mem hi)
  subst hv
  refine ⟨idxRows, hix, r, hrmem, hk.symm, rfl, fun hnone => ?_⟩
  show some (pyLower (r.type.getD "btree")) = some "btree"
  rw [hnone]
  decide

/-- C7: when the index lookup or the reverse-reference lookup fails for any
single reached table, the whole extraction aborts with an error (no partial
`DatabaseModel`), no JSON document is written, and the process exit code is
non-zero. -/
theorem C7_fail_fast {cat : Catalog} {s t : String}
    (hs : s ∈ keptSchemas cat) (ht : t ∈ cat.tableNames s)
    (he : (∃ e, cat.idxExec s t = .error e) ∨ (∃ e, cat.refExec s t = .error e)) :
    (∃ e', extractSchema cat = .error e') ∧
      (main cat).written = none ∧ (main cat).exitCode ≠ 0 := by
  have hnotok : ∀ tbl, processTable cat s t ≠ .ok tbl := by
    intro tbl htbl
    obtain ⟨pks, fks, idxRows, refd, hpk, hfk, hix, href, _⟩ := processTable_ok_parts htbl
    rcases he with ⟨e, he⟩ | ⟨e, he⟩
    · rw [he] at hix; exact Except.noConfusion hix
    · obtain ⟨rows, hrows, _⟩ := getReferencedBy_ok href
      rw [he] at hrows; exact Except.noConfusion hrows
  have hnoextract : ∀ m, extractSchema cat ≠ .ok m := by
    intro m hm
    rw [extractSchema] at hm
    obtain ⟨sch, hsch⟩ := processSchemas_ok_forall hm s hs
    rw [processSchema] at hsch
    obtain ⟨tbl, htbl⟩ := processTables_ok_forall hsch t ht
    exact hnotok tbl htbl
  cases hx : extractSchema cat with
  | ok m => exact absurd hx (hnoextract m)
  | error e' =>
    refine ⟨⟨e', rfl⟩, ?_, ?_⟩
    · simp [main, hx]
    · simp [main, hx]

/-- C8: the assembled `DatabaseModel`'s schemas mapping has as keys exactly
the metadata facility's schema names minus the two reserved names
`"information_schema"` and `"pg_catalog"`. -/
theorem C8_schema_filter {cat : Catalog} {m : DatabaseModel}
    (hm : extractSchema cat = .ok m) (s : String) :
    s ∈ dkeys m.schemas ↔
      s ∈ cat.schemaNames ∧ s ≠ "information_schema" ∧ s ≠ "pg_catalog" := by
  rw [extractSchema] at hm
  rw [processSchemas_ok_keys hm s, ← mem_keptSchemas_iff]
  simp [dkeys]

/-- C9: key-consistency of every assembled table: each column-mapping key
equals the stored `Column`'s `name`, each index-mapping key equals the
stored `Index`'s `name`, and each reverse-reference key equals the stored
`ReferencedBy`'s `table`. -/
theorem C9_key_consistency {cat : Catalog} {m : DatabaseModel} {s t : String}
    {sch : Schema} {tbl : Table}
    (hm : extractSchema cat = .ok m)
    (hs : dlookup s m.schemas = some sch)
    (ht : dlookup t sch.tables = some tbl) :
    (∀ n c, dlookup n tbl.columns = some c → c.name = n) ∧
    (∀ n i, dlookup n tbl.indexes = some i → i.name = n) ∧
    (∀ n r, dlookup n tbl.referenced_by = some r → r.table = n) := by
  obtain ⟨pks, fks, idxRows, refd, hpk, hfk, hix, href, htbl⟩ :=
    processTable_ok_parts (extractSchema_ok_lookup hm hs ht)
  obtain ⟨rows, hrows, hrefd⟩ := getReferencedBy_ok href
  subst htbl
  subst hrefd
  refine ⟨?_, ?_, ?_⟩
  · intro n c hl
    have hmem : (n, c) ∈ pyDictOf ColInfo.name (buildColumn pks fks) (cat.columns s t) :=
      dlookup_mem hl
    obtain ⟨ci, _, hkn, hval⟩ := mem_pyDictOf hmem
    subst hval
    exact hkn.symm
  · intro n i hl
    obtain ⟨r, _, hp, hk, hv⟩ := mem_buildIndexes (dlookup_mem hl)
    subst hv
    exact hk.symm
  · intro n r hl
    have hmem : (n, r) ∈ pyDictOf RefRow.source_table refOfRow rows :=
      dlookup_mem hl
    obtain ⟨rr, _, hk, hv⟩ := mem_pyDictOf hmem
    subst hv
    exact hk.symm

/-- C10: every `ReferencedBy` value produced by the reverse-reference lookup
has a columns list of length exactly one (each entry is built from a single
catalog row with a single referencing column). -/
theorem C10_referenced_by_single_column {cat : Catalog} {s t k : String}
    {refd : List (String × ReferencedBy)} {rb : ReferencedBy}
    (h : getReferencedBy cat s t = .ok refd)
    (hl : dlookup k refd = some rb) :
    rb.columns.length = 1 := by
  obtain ⟨rows, hrows, hrefd⟩ := getReferencedBy_ok h
  subst hrefd
  have hmem : (k, rb) ∈ pyDictOf RefRow.source_table refOfRow rows :=
    dlookup_mem hl
  obtain ⟨r, _, hk, hv⟩ := mem_pyDictOf hmem
  subst hv
  rfl

/-! ## C6: the wrapped index-lookup error message -/

/-- Catalog on which `inspector.get_indexes` raises `Exception("boom")` for
the only table, `public.orders`. -/
def catBug : Catalog :=
  { schemaNames := ["public"]
    tableNames := fun _ => ["orders"]
    columns := fun _ _ => []
    pkExec := fun _ _ => .ok []
    fkExec := fun _ _ => .ok []
    refExec := fun _ _ => .ok []
    idxExec := fun _ _ => .error (.generic "boom") }

/-- C6: an index-lookup failure is wrapped in a `SchemaValueError`, but the
wrapped message does not carry the schema and table names: the source's
first message literal (main.py line 216) is a plain string, not an f-string,
so the message contains the literal placeholder text instead of
`public.orders`; only the underlying cause is interpolated.  This refutes
the part of the claim that says the message carries the schema name and the
table name. -/
theorem C6_index_error_message_bug :
    extractSchema catBug =
      .error (.schemaValueError
        ("Erro ao tentar obter os indices no catálogo para '\x7bschema_name\x7d.\x7btable_name\x7d'. Exception: boom")) ∧
    idxErrorMsg (.generic "boom") ≠
      "Erro ao tentar obter os indices no catálogo para 'public.orders'. Exception: boom" :=
  ⟨rfl, by decide⟩

/-! ## Concrete witness inputs -/

/-- Column records of the witness table `public.orders`. -/
def colsW : List ColInfo :=
  [ { name := "id1", type := "INTEGER", nullable := false, default := none }
  , { name := "id2", type := "INTEGER", nullable := false, default := none }
  , { name := "customer_id", type := "INTEGER", nullable := true, default := some "1" } ]

/-- Foreign-key rows with two constraints colliding on the same local
column `customer_id`. -/
def fkRowsW : List FkRow :=
  [ { column_name := "customer_id", target_table := "customers"
      target_column := "id", constraint_name := "fk_orders_customers_a" }
  , { column_name := "customer_id", target_table := "customers"
      target_column := "id2", constraint_name := "fk_orders_customers_b" } ]

/-- Reverse-reference rows with two constraints from the same referencing
table `invoices`. -/
def refRowsW : List RefRow :=
  [ { source_table := "invoices", source_column := "order_id1"
      constraint_name := "fk_invoices_a" }
  , { source_table := "invoices", source_column := "order_id2"
      constraint_name := "fk_invoices_b" } ]

/-- Index rows containing the `PRIMARY` sentinel and an index without a type
label. -/
def idxRowsW : List IdxRow :=
  [ { name := "PRIMARY", column_names := ["id1", "id2"], unique := true
      type := some "BTREE" }
  , { name := "orders_cust_idx", column_names := ["customer_id"], unique := false
      type := none } ]

/-- Witness catalog: schema `public` (next to the two reserved schemas) with
one table `orders` carrying a composite primary key `(id1, id2)`. -/
def catW : Catalog :=
  { schemaNames := ["public", "information_schema", "pg_catalog"]
    tableNames := fun s => if s = "public" then ["orders"] else []
    columns := fun s t => if s = "public" ∧ t = "orders" then colsW else []
    pkExec := fun _ _ => .ok [{ attname := "id1" }, { attname := "id2" }]
    fkExec := fun _ _ => .ok fkRowsW
    refExec := fun _ _ => .ok refRowsW
    idxExec := fun _ _ => .ok idxRowsW }

/-- The model extracted from the witness catalog. -/
def mW : DatabaseModel := (extractSchema catW).toOption.getD {}

/-- The witness schema record. -/
def schW : Schema := (dlookup "public" mW.schemas).getD {}

/-- The witness table record. -/
def tblW : Table := (dlookup "orders" schW.tables).getD {}

/-- The assembled column `id1` (first part of the composite primary key). -/
def colId1W : Column :=
  (dlookup "id1" tblW.columns).getD { name := "", type := "", nullable := false }

/-- The assembled column `customer_id` (the foreign-key column). -/
def colCustW : Column :=
  (dlookup "customer_id" tblW.columns).getD { name := "", type := "", nullable := false }

/-- The assembled index `orders_cust_idx` (no type label in the catalog). -/
def idxW : Index :=
  (dlookup "orders_cust_idx" tblW.indexes).getD { name := "", columns := [], unique := false }

/-- The assembled reverse reference from `invoices`. -/
def rbW : ReferencedBy :=
  (dlookup "invoices" tblW.referenced_by).getD { table := "", columns := [], constraint := "" }

/-- The reverse-reference dict of the witness rows. -/
def refdW : List (String × ReferencedBy) := refDict refRowsW

/-! ## Witnesses -/

/-- Witness for C1 on the composite-primary-key table of `catW`. -/
theorem C1_witness :
    extractSchema catW = .ok mW ∧
    ∃ pks, getPrimaryKeys catW "public" "orders" = .ok pks ∧
      (colId1W.primary_key = true ↔ colId1W.name ∈ pks) :=
  ⟨rfl, @C1_primary_key_iff catW mW "public" "orders" "id1" schW tblW colId1W rfl rfl rfl rfl⟩

/-- Witness for C2 on the foreign-key column of `catW`. -/
theorem C2_witness :
    extractSchema catW = .ok mW ∧
    ∃ fks, getForeignKeys catW "public" "orders" = .ok fks ∧
      (colCustW.foreign_key.isSome = true ↔ colCustW.name ∈ dkeys fks) ∧
      colCustW.foreign_key = dlookup colCustW.name fks :=
  ⟨rfl, @C2_foreign_key_iff catW mW "public" "orders" "customer_id" schW tblW colCustW
    rfl rfl rfl rfl⟩

/-- Witness for C3: with two colliding rows each, the surviving entries are
the ones built from the last rows. -/
theorem C3_witness :
    catW.fkExec "public" "orders" = .ok fkRowsW ∧
    dlookup "customer_id" (fkDict fkRowsW) =
      some { target_table := "customers", target_column := "id2"
             constraint_name := "fk_orders_customers_b" } ∧
    dlookup "invoices" (refDict refRowsW) =
      some { table := "invoices", columns := ["order_id2"]
             constraint := "fk_invoices_b" } := by
  have h := @C3_last_write_wins catW "public" "orders" fkRowsW refRowsW rfl rfl
  refine ⟨rfl, ?_, ?_⟩
  · rw [h.2.2.1 "customer_id"]; rfl
  · rw [h.2.2.2.2.2 "invoices"]; rfl

/-- Witness for C4: `catW` reports a `PRIMARY` index row, yet the assembled
table has no `PRIMARY` entry. -/
theorem C4_witness :
    extractSchema catW = .ok mW ∧ dlookup "PRIMARY" tblW.indexes = none :=
  ⟨rfl, @C4_no_primary_sentinel catW mW "public" "orders" schW tblW rfl rfl rfl⟩

/-- Witness for C5 on the type-less index row of `catW`. -/
theorem C5_witness :
    extractSchema catW = .ok mW ∧
    ∃ idxRows, catW.idxExec "public" "orders" = .ok idxRows ∧
      ∃ r ∈ idxRows, r.name = "orders_cust_idx" ∧
        idxW.type = some (pyLower (r.type.getD "btree")) ∧
        (r.type = none → idxW.type = some "btree") :=
  ⟨rfl, @C5_index_type catW mW "public" "orders" "orders_cust_idx" schW tblW idxW
    rfl rfl rfl rfl⟩

/-- Witness for C7 on `catBug`, whose index lookup fails for the only
table. -/
theorem C7_witness :
    "public" ∈ keptSchemas catBug ∧
    "orders" ∈ catBug.tableNames "public" ∧
    ((∃ e', extractSchema catBug = .error e') ∧
      (main catBug).written = none ∧ (main catBug).exitCode ≠ 0) :=
  ⟨by decide, by decide,
    @C7_fail_fast catBug "public" "orders" (by decide) (by decide)
      (Or.inl ⟨PyError.generic "boom", rfl⟩)⟩

/-- Witness for C8: `public` is kept in `mW`; the reserved names never
appear. -/
theorem C8_witness :
    extractSchema catW = .ok mW ∧
    ("public" ∈ dkeys mW.schemas ↔
      "public" ∈ catW.schemaNames ∧ "public" ≠ "information_schema" ∧
        "public" ≠ "pg_catalog") :=
  ⟨rfl, @C8_schema_filter catW mW rfl "public"⟩

/-- Witness for C9 on the three mappings of the witness table. -/
theorem C9_witness :
    colId1W.name = "id1" ∧ idxW.name = "orders_cust_idx" ∧ rbW.table = "invoices" := by
  have h := @C9_key_consistency catW mW "public" "orders" schW tblW rfl rfl rfl
  exact ⟨h.1 "id1" colId1W rfl, h.2.1 "orders_cust_idx" idxW rfl,
    h.2.2 "invoices" rbW rfl⟩

/-- Witness for C10 on the reverse-reference entry of `catW`. -/
theorem C10_witness :
    getReferencedBy catW "public" "orders" = .ok refdW ∧ rbW.columns.length = 1 :=
  ⟨rfl, @C10_referenced_by_single_column catW "public" "orders" "invoices" refdW rbW rfl rfl⟩

end MyDataModel
